import Mathlib

/-!
Verification development for the hubbops-platform repository.

The sources under scrutiny are the front-end layer of the platform
(`src/src/components`, `src/src/pages` and the unnamed React modules).
Pure fragments of that code — the dynamic form validation, the log
viewer's WebSocket message handler, and the wizard's simulated
deployment pipeline — are embedded directly as Lean functions.

The provisioning orchestrator back end described by the specification
(Pipeline Executor, Log Event Broker, Service Registry, Orchestrator
Facade) is not part of the front-end sources; the definitions for it
below are modelled from the specification text and are marked as such
in their doc comments.
-/

namespace HubbOps

/-- JavaScript runtime values as they occur in the form state of
`DynamicForm.jsx` / `FormField` (part_003): `undefined`, `null`,
booleans, numbers and strings. -/
inductive JSVal where
  | undefinedVal
  | null
  | bool (b : Bool)
  | num (n : Int)
  | str (s : String)
  deriving DecidableEq

/-- JavaScript truthiness: `undefined`, `null`, `false`, `0` and the
empty string are falsy. -/
def JSVal.falsy : JSVal → Bool
  | .undefinedVal => true
  | .null => true
  | .bool b => !b
  | .num n => n == 0
  | .str s => s == ""

/-- The component state `formData`, a JavaScript object modelled as an
association list; reading an absent property yields `undefined`. -/
def FormData := List (String × JSVal)

instance : DecidableEq FormData := by unfold FormData; infer_instance

/-- JavaScript property read `formData[key]`. -/
def lookupField (fd : FormData) (k : String) : JSVal :=
  match fd.find? (fun p => p.1 == k) with
  | some p => p.2
  | none => .undefinedVal

/-- `setFormData(prev => ({ ...prev, [key]: value }))` from
`DynamicForm.jsx` line 25. -/
def setFormField (fd : FormData) (k : String) (v : JSVal) : FormData :=
  (fd.filter (fun p => p.1 != k)) ++ [(k, v)]

/-- One schema field of the dynamic form (`schema.fields` in
`DynamicForm.jsx`; rendered by `FormField` in part_003).  A missing
`key` is modelled as the empty string, which is falsy in JavaScript
exactly like an absent property. -/
structure SchemaField where
  key : String
  label : String
  fieldType : String
  required : Bool
  deriving DecidableEq

/-- The per-field test of `validate` (`DynamicForm.jsx` line 44):
`field.required && field.key && !formData[field.key]`. -/
def requiredMissing (fd : FormData) (f : SchemaField) : Bool :=
  f.required && f.key != "" && (lookupField fd f.key).falsy

/-- `validate` from `DynamicForm.jsx` lines 39-52: walks
`schema.fields`, records the error message for every required field
whose current value is falsy, and returns the error map together with
the validity flag. -/
def validate (fields : List SchemaField) (fd : FormData) :
    List (String × String) × Bool :=
  fields.foldl
    (fun acc f =>
      if requiredMissing fd f then
        (acc.1 ++ [(f.key, "This field is required")], false)
      else acc)
    ([], true)

/-- `handleSubmit` from `DynamicForm.jsx` lines 54-59: `onSubmit` is
invoked with the current form data exactly when `validate()` returns
true; `none` means `onSubmit` was not called. -/
def handleSubmit (fields : List SchemaField) (fd : FormData) : Option FormData :=
  if (validate fields fd).2 then some fd else none

/-- `handleChange` from `FormField` (part_003 lines 9-24): a boolean
field stores `e.target.checked`; a `select-or-custom` field switching to
`custom` stores the current custom text; every other input stores
`e.target.value`, i.e. the entered text. -/
def formFieldChangeValue (f : SchemaField) (checked : Bool)
    (inputValue : String) (customValue : String) : JSVal :=
  if f.fieldType == "boolean" then .bool checked
  else if f.fieldType == "select-or-custom" && inputValue == "custom" then
    .str customValue
  else .str inputValue

/-- Character-list prefix match, used to model
`String.prototype.includes`. -/
def leadMatch : List Char → List Char → Bool
  | [], _ => true
  | _ :: _, [] => false
  | p :: ps, c :: cs => p == c && leadMatch ps cs

/-- Character-list substring occurrence. -/
def occursGen (pat : List Char) : List Char → Bool
  | [] => leadMatch pat []
  | c :: cs => leadMatch pat (c :: cs) || occursGen pat cs

/-- `s.includes(pat)` from JavaScript. -/
def jsIncludes (s pat : String) : Bool :=
  occursGen pat.toList s.toList

/-- One WebSocket log message as parsed by `LogViewer.jsx` line 19.  An
absent `step` property is modelled as the empty string (both are falsy
in the `if (logMessage.step)` test). -/
structure LogMessage where
  step : String
  level : String
  message : String
  deriving DecidableEq

/-- One entry of the `steps` state of `LogViewer.jsx`. -/
structure StepEntry where
  name : String
  status : String
  messages : List LogMessage
  deriving DecidableEq

/-- The `LogViewer` component state touched by the socket handlers. -/
structure ViewerState where
  logMessages : List LogMessage
  steps : List StepEntry
  isComplete : Bool
  hasFailed : Bool
  deriving DecidableEq

/-- The state before any socket event. -/
def viewerStart : ViewerState :=
  { logMessages := [], steps := [], isComplete := false, hasFailed := false }

/-- The per-entry update of the `setSteps` updater
(`LogViewer.jsx` lines 26-30): the entry matching the message's step
gets the message appended and its status recomputed from the message
level (`error` → `failed`, otherwise `running`); other entries are
untouched. -/
def bumpStep (m : LogMessage) (s : StepEntry) : StepEntry :=
  if s.name == m.step then
    { s with
      status := if m.level == "error" then "failed" else "running",
      messages := s.messages ++ [m] }
  else s

/-- The `setSteps` updater of `LogViewer.jsx` lines 23-38: an existing
entry for the message's step is updated by `bumpStep`; a first message
for a step appends a fresh entry with status `running`. -/
def updateSteps (steps : List StepEntry) (m : LogMessage) : List StepEntry :=
  if steps.any (fun s => s.name == m.step) then
    steps.map (bumpStep m)
  else
    steps ++ [{ name := m.step, status := "running", messages := [m] }]

/-- `ws.onmessage` from `LogViewer.jsx` lines 18-45: append the message
to `logMessages`, update `steps` when the message carries a step name,
set `hasFailed` on an `error` level, and set `isComplete` when the
message text contains the substring `successfully`. -/
def onMessage (st : ViewerState) (m : LogMessage) : ViewerState :=
  { st with
    logMessages := st.logMessages ++ [m],
    steps := if m.step != "" then updateSteps st.steps m else st.steps,
    hasFailed := st.hasFailed || (m.level == "error"),
    isComplete := st.isComplete || jsIncludes m.message "successfully" }

/-- The socket-side occurrences the handlers of `LogViewer.jsx` react
to: an incoming message, the socket closing, and a socket error. -/
inductive WsEvent where
  | msg (m : LogMessage)
  | close
  | sockError
  deriving DecidableEq

/-- Dispatch of one socket event to the handlers of `LogViewer.jsx`:
`onmessage` (lines 18-45), `onclose` (lines 47-50, sets `isComplete`),
`onerror` (line 52, sets `hasFailed`). -/
def applyWsEvent (st : ViewerState) (e : WsEvent) : ViewerState :=
  match e with
  | .msg m => onMessage st m
  | .close => { st with isComplete := true }
  | .sockError => { st with hasFailed := true }

/-- The viewer state after a sequence of socket events. -/
def runViewer (evts : List WsEvent) : ViewerState :=
  evts.foldl applyWsEvent viewerStart

/-- The viewer state after a sequence of received messages only. -/
def runViewerMsgs (msgs : List LogMessage) : ViewerState :=
  runViewer (msgs.map WsEvent.msg)

/-- The step status the message handler would have to compute if it
were determined solely by the level of the most recent event for the
step (the reading under scrutiny for the viewer's status logic); stated
from that reading, for comparison with `updateSteps`. -/
def statusOfLastLevel (msgs : List LogMessage) : String :=
  match msgs.getLast? with
  | some m => if m.level == "error" then "failed" else "running"
  | none => "running"

/-- One simulated step of the wizard mock deployment
(`ReviewCard.jsx` lines 25-38): a message, a display type
(`step.type || 'info'`) and a predetermined delay in milliseconds. -/
structure MockStep where
  msg : String
  stepType : String
  delay : Nat
  deriving DecidableEq

/-- The hard-coded step table of `handleCreate`
(`ReviewCard.jsx` lines 25-38). -/
def reviewCardSteps : List MockStep :=
  [ { msg := "Initializing deployment workflow...", stepType := "info", delay := 500 },
    { msg := "Validating configuration for the service...", stepType := "info", delay := 1000 },
    { msg := "Generating Kubernetes manifests...", stepType := "info", delay := 800 },
    { msg := "Generating Helm release values...", stepType := "info", delay := 600 },
    { msg := "Committing changes to GitOps repository...", stepType := "info", delay := 1500 },
    { msg := "Pushing to branch feature/new-service...", stepType := "info", delay := 1200 },
    { msg := "Creating Pull Request...", stepType := "info", delay := 1000 },
    { msg := "Waiting for CI checks...", stepType := "info", delay := 2000 },
    { msg := "CI checks passed.", stepType := "success", delay := 500 },
    { msg := "Merging Pull Request...", stepType := "info", delay := 1000 },
    { msg := "Syncing with ArgoCD...", stepType := "info", delay := 1500 },
    { msg := "Deployment triggered successfully!", stepType := "success", delay := 500 } ]

/-- One emitted mock log line with the instant (in elapsed
milliseconds) at which `addLog` runs. -/
structure TimedLog where
  time : Nat
  message : String
  logType : String
  deriving DecidableEq

/-- The timed semantics of the `for ... of steps` loop of
`handleCreate` (`ReviewCard.jsx` lines 40-43): each iteration awaits
`setTimeout(step.delay)` and then appends the step's log line, so the
line is emitted exactly `step.delay` after the previous one. -/
def runMock : List MockStep → Nat → List TimedLog
  | [], _ => []
  | s :: rest, now =>
      { time := now + s.delay, message := s.msg, logType := s.stepType }
        :: runMock rest (now + s.delay)

/-- The full timed log schedule of one mock deployment run. -/
def mockSchedule (steps : List MockStep) : List TimedLog :=
  runMock steps 0

/-- The emission instants of the mock run. -/
def mockEmissionTimes (steps : List MockStep) : List Nat :=
  (mockSchedule steps).map TimedLog.time

/-- `reviewCardSteps` with the first delay altered and every message
and display type unchanged: the same pipeline content under a different
predetermined delay table. -/
def reviewCardStepsAltDelay : List MockStep :=
  match reviewCardSteps with
  | [] => []
  | s :: rest => { s with delay := 0 } :: rest

/-- Per-step outcome of one external operation, as reported to the
Pipeline Executor. -/
inductive StepOutcome where
  | success
  | failure
  deriving DecidableEq

/-- Overall status of a PipelineRun. -/
inductive RunStatus where
  | running
  | succeeded
  | failed
  | cancelled
  deriving DecidableEq

/-- Modelled from the spec: the Pipeline Executor (§4.2), which is part
of the orchestrator back end and not among the front-end sources.
Steps execute strictly in template order starting at index `i`; each
executed step emits its log event tagged with the step's index and
name; a `failure` outcome immediately halts the pipeline with run
status `failed`; exhausting the list with every step succeeding yields
`succeeded`. -/
def execSteps (outcome : Nat → StepOutcome) :
    List String → Nat → List (Nat × String) × RunStatus
  | [], _ => ([], .succeeded)
  | s :: rest, i =>
    match outcome i with
    | .failure => ([(i, s)], .failed)
    | .success =>
      let r := execSteps outcome rest (i + 1)
      ((i, s) :: r.1, r.2)

/-- One full pipeline run over a template's ordered step names, with
the external outcome of step `i` given by `outcome i`. -/
def runPipeline (steps : List String) (outcome : Nat → StepOutcome) :
    List (Nat × String) × RunStatus :=
  execSteps outcome steps 0

/-- One structured log event held by the Log Event Broker. -/
structure BrokerEvent where
  seq : Nat
  step : String
  level : String
  text : String
  deriving DecidableEq

/-- Modelled from the spec: the Log Event Broker state (§4.4) — the
ordered per-run buffer plus the event sequence delivered so far to each
attached subscriber. -/
structure BrokerState where
  buffer : List BrokerEvent
  inboxes : List (List BrokerEvent)
  deriving DecidableEq

/-- Modelled from the spec: `publish` (§4.4) appends the event — whose
sequence number is the next unused one — to the buffer and pushes it to
every live subscriber. -/
def brokerPublish (st : BrokerState) (step level text : String) : BrokerState :=
  let e : BrokerEvent := { seq := st.buffer.length, step := step, level := level, text := text }
  { buffer := st.buffer ++ [e], inboxes := st.inboxes.map (fun ib => ib ++ [e]) }

/-- Modelled from the spec: `subscribe` (§4.1, §4.4) attaches a new
subscriber, replaying the buffered events from sequence 0 before
delivering new ones. -/
def brokerAttach (st : BrokerState) : BrokerState :=
  { buffer := st.buffer, inboxes := st.inboxes ++ [st.buffer] }

/-- One observable action on a run's broker. -/
inductive BrokerAction where
  | publish (step level text : String)
  | attach
  deriving DecidableEq

/-- The broker state reached from an empty run after a sequence of
publishes and subscriptions. -/
def brokerRun (acts : List BrokerAction) : BrokerState :=
  acts.foldl
    (fun st a =>
      match a with
      | .publish step level text => brokerPublish st step level text
      | .attach => brokerAttach st)
    { buffer := [], inboxes := [] }

/-- Error taxonomy of the orchestrator interface (§7). -/
inductive OpError where
  | validationError
  | conflictError
  deriving DecidableEq

/-- A persisted Service record of the Service Registry (§3): lifecycle
state plus the run-lock flag recording whether a PipelineRun is
currently active for the Service. -/
structure ServiceRec where
  id : Nat
  name : String
  namespaceName : String
  state : String
  runActive : Bool
  deriving DecidableEq

/-- Modelled from the spec: the `start` operation of the Orchestrator
Facade (§4.1).  The back-end facade is not among the front-end sources;
`schemaOk` abstracts the opaque template configuration-schema check.
A `serviceName` that is not unique within its namespace, or a
configuration failing the schema, is rejected with `ValidationError`
before any Service record is created; a duplicate name with an active
PipelineRun is rejected with `ConflictError`; otherwise the Service is
persisted in state `creating` with the run lock taken.  The returned
registry is unchanged on every error. -/
def startFacade (reg : List ServiceRec) (serviceName ns : String)
    (schemaOk : Bool) (freshId : Nat) :
    Except OpError Nat × List ServiceRec :=
  if reg.any (fun s => s.name == serviceName && s.namespaceName == ns) then
    (.error .validationError, reg)
  else if !schemaOk then
    (.error .validationError, reg)
  else if reg.any (fun s => s.name == serviceName && s.runActive) then
    (.error .conflictError, reg)
  else
    (.ok freshId,
     reg ++ [{ id := freshId, name := serviceName, namespaceName := ns,
               state := "creating", runActive := true }])

/-- A direct admin-triggered lifecycle command (§4.3), as issued by the
`ServiceDetail` (part_005) and `Services.jsx` handlers through the API
client. -/
inductive LifecycleCmd where
  | activate
  | deactivate
  | delete
  deriving DecidableEq

/-- The target lifecycle state of a command. -/
def lifecycleTarget : LifecycleCmd → String
  | .activate => "active"
  | .deactivate => "inactive"
  | .delete => "deleted"

/-- The admissible direct transitions of the Service lifecycle state
machine (§4.3): `active` ↔ `inactive` and
`{active, inactive, failed} → deleted`. -/
def transitionAllowed (src dst : String) : Bool :=
  (src == "active" && dst == "inactive") ||
  (src == "inactive" && dst == "active") ||
  ((src == "active" || src == "inactive" || src == "failed") && dst == "deleted")

/-- Modelled from the spec: applying one lifecycle command to a Service
record (§4.3): rejected with `ConflictError` while a PipelineRun is
active for the Service, and also for a transition outside the state
machine. -/
def applyLifecycle (svc : ServiceRec) (cmd : LifecycleCmd) :
    Except OpError ServiceRec :=
  if svc.runActive then .error .conflictError
  else if transitionAllowed svc.state (lifecycleTarget cmd) then
    .ok { svc with state := lifecycleTarget cmd }
  else .error .conflictError

/-- Modelled from the spec: a lifecycle command against the registry;
on any error the registry — and hence the Service's stored state — is
returned unchanged. -/
def lifecycleCommand (reg : List ServiceRec) (sid : Nat) (cmd : LifecycleCmd) :
    Except OpError Unit × List ServiceRec :=
  match reg.find? (fun s => s.id == sid) with
  | none => (.error .validationError, reg)
  | some svc =>
    match applyLifecycle svc cmd with
    | .error e => (.error e, reg)
    | .ok svc' => (.ok (), reg.map (fun s => if s.id == sid then svc' else s))

/-- An authenticated principal, the explicit argument the spec (§9)
requires every Facade call to carry. -/
structure Principal where
  subject : String
  role : String
  deriving DecidableEq

/-- The ambient client-side state the UI layer consults: the `user`
entry of shared browser local storage read by `Services.jsx` line 183
(`JSON.parse(localStorage.getItem('user') || '...').role`). -/
structure Ambient where
  user : Option Principal
  deriving DecidableEq

/-- The UI-layer guard of `Services.jsx` lines 183-190: the Delete
action is offered exactly when the ambient stored user's role is
`admin` (an absent entry parses to an object with no role). -/
def uiShowDelete (amb : Ambient) : Bool :=
  match amb.user with
  | some u => u.role == "admin"
  | none => false

/-- Modelled from the spec: the orchestrator's authorization decision
(§9) is computed from the explicit authenticated-principal argument
and the requested action only — never from ambient lookup. -/
def authorizeLifecycle (p : Principal) (action : String) : Bool :=
  if action == "delete" || action == "deactivate" || action == "activate" then
    p.role == "admin"
  else true

/-- A Facade call as seen from the client: the ambient client-side
state is in scope at the call site, but the authorization outcome is
produced by `authorizeLifecycle` from the explicit principal alone. -/
def facadeCall (p : Principal) (action : String) (_amb : Ambient) : Bool :=
  authorizeLifecycle p action

/-- The invariant the socket handlers of `LogViewer.jsx` maintain:
every step entry carries a non-empty name, its message list is exactly
the received messages for that step in arrival order, and its status is
`running` after a single message and otherwise recomputed from the
level of the last message; and every received step-tagged message has a
step entry. -/
def ViewerInv (st : ViewerState) : Prop :=
  (∀ s ∈ st.steps, s.name ≠ "" ∧
      s.messages = st.logMessages.filter (fun m => m.step == s.name) ∧
      s.messages ≠ [] ∧
      s.status =
        (if s.messages.length ≤ 1 then "running" else statusOfLastLevel s.messages)) ∧
  (∀ m ∈ st.logMessages, m.step ≠ "" → ∃ s ∈ st.steps, s.name = m.step)

/-- The broker invariant: buffered sequence numbers are exactly
`0, 1, …` in order (strictly increasing and gap-free), and every
attached subscriber has been delivered exactly the buffer, in buffer
order. -/
def BrokerInv (st : BrokerState) : Prop :=
  st.buffer.map BrokerEvent.seq = List.range st.buffer.length ∧
  ∀ ib ∈ st.inboxes, ib = st.buffer

/-- A concrete broker action sequence: one subscription followed by two
publishes. -/
def demoBrokerActs : List BrokerAction :=
  [BrokerAction.attach,
   BrokerAction.publish "generate" "info" "generating",
   BrokerAction.publish "build" "info" "image built"]

/-- The buffer contents the demo action sequence produces. -/
def demoBuffer : List BrokerEvent :=
  [{ seq := 0, step := "generate", level := "info", text := "generating" },
   { seq := 1, step := "build", level := "info", text := "image built" }]

/-- Two received messages for the `generate` step. -/
def generateMsgs : List LogMessage :=
  [{ step := "generate", level := "info", message := "a" },
   { step := "generate", level := "success", message := "b" }]

/-- The step entry the viewer holds after receiving `generateMsgs`. -/
def generateEntry : StepEntry :=
  { name := "generate", status := "running", messages := generateMsgs }

/-- An `error` message for the `build` step followed by an `info`
message for the same step. -/
def buildRetryMsgs : List LogMessage :=
  [{ step := "build", level := "error", message := "transient" },
   { step := "build", level := "info", message := "retrying" }]

/-- The step entry the viewer holds after receiving `buildRetryMsgs`:
the later non-error message reverted the status to `running`. -/
def buildRetryEntry : StepEntry :=
  { name := "build", status := "running", messages := buildRetryMsgs }

/-- An `active` Service with a PipelineRun currently active. -/
def activeRunSvc : ServiceRec :=
  { id := 0, name := "api", namespaceName := "dev",
    state := "active", runActive := true }

/-! ### Lemmas about the dynamic form validation -/

theorem validate_foldl_spec (fd : FormData) (fields : List SchemaField)
    (acc : List (String × String) × Bool) :
    fields.foldl
      (fun acc f =>
        if requiredMissing fd f then
          (acc.1 ++ [(f.key, "This field is required")], false)
        else acc) acc =
      (acc.1 ++ (fields.filter (requiredMissing fd)).map
          (fun f => (f.key, "This field is required")),
       acc.2 && !(fields.any (requiredMissing fd))) := by
  induction fields generalizing acc with
  | nil => simp
  | cons f fs ih =>
    by_cases h : requiredMissing fd f = true
    · simp only [List.foldl_cons, if_pos h, ih, List.filter_cons_of_pos h,
        List.map_cons, List.any_cons, h, Bool.true_or, Bool.not_true,
        Bool.and_false, Bool.false_and]
      simp
    · have hb : requiredMissing fd f = false := by
        cases hx : requiredMissing fd f
        · rfl
        · exact absurd hx h
      simp only [List.foldl_cons, if_neg h, ih, List.filter_cons_of_neg h,
        List.any_cons, hb, Bool.false_or]
      simp

theorem validate_spec (fields : List SchemaField) (fd : FormData) :
    validate fields fd =
      ((fields.filter (requiredMissing fd)).map
          (fun f => (f.key, "This field is required")),
       !(fields.any (requiredMissing fd))) := by
  unfold validate
  rw [validate_foldl_spec]
  simp

theorem handleSubmit_none_iff (fields : List SchemaField) (fd : FormData) :
    handleSubmit fields fd = none ↔ fields.any (requiredMissing fd) = true := by
  unfold handleSubmit
  rw [validate_spec]
  cases hx : fields.any (requiredMissing fd)
  · simp [hx]
  · simp [hx]

theorem requiredMissing_iff (fd : FormData) (f : SchemaField) :
    requiredMissing fd f = true ↔
      f.required = true ∧ f.key ≠ "" ∧ (lookupField fd f.key).falsy = true := by
  unfold requiredMissing
  simp [Bool.and_assoc, bne_iff_ne]

/-! ### Theorems for the claims about form validation -/

/-- C4. A start request whose serviceName is not unique within its
namespace, or whose configuration fails the template's schema, fails
with `ValidationError` and creates no Service record (the registry is
returned unchanged); and in the form layer `onSubmit` is never invoked
while a required field of the schema is missing from the form data. -/
theorem c4_validation_rejects :
    (∀ (reg : List ServiceRec) (serviceName ns : String) (ok : Bool) (fid : Nat),
      (reg.any (fun s => s.name == serviceName && s.namespaceName == ns) = true ∨
        ok = false) →
      startFacade reg serviceName ns ok fid = (.error .validationError, reg)) ∧
    (∀ (fields : List SchemaField) (fd : FormData) (f : SchemaField),
      f ∈ fields → f.required = true → f.key ≠ "" →
      lookupField fd f.key = .undefinedVal → handleSubmit fields fd = none) := by
  constructor
  · intro reg serviceName ns ok fid h
    unfold startFacade
    rcases h with h | h
    · rw [if_pos h]
    · by_cases hdup : reg.any (fun s => s.name == serviceName && s.namespaceName == ns) = true
      · rw [if_pos hdup]
      · rw [if_neg hdup, h]
        simp
  · intro fields fd f hf hreq hkey hval
    rw [handleSubmit_none_iff]
    rw [List.any_eq_true]
    refine ⟨f, hf, ?_⟩
    rw [requiredMissing_iff]
    exact ⟨hreq, hkey, by rw [hval]; rfl⟩

/-- C4 witness: a duplicate service name in the `dev` namespace is
rejected with `ValidationError` leaving the registry unchanged, and a
form whose required `serviceName` field is absent does not invoke
`onSubmit`. -/
theorem c4_witness :
    startFacade [{ id := 0, name := "api", namespaceName := "dev",
                   state := "active", runActive := false }] "api" "dev" true 1 =
      (.error .validationError,
       [{ id := 0, name := "api", namespaceName := "dev",
          state := "active", runActive := false }]) ∧
    handleSubmit
      [{ key := "serviceName", label := "Service Name",
         fieldType := "text", required := true }] [] = none := by
  refine ⟨?_, ?_⟩
  · exact c4_validation_rejects.1 _ "api" "dev" true 1 (Or.inl (by decide))
  · exact c4_validation_rejects.2 _ [] _ (List.mem_singleton.mpr rfl) rfl
      (by decide) rfl

/-- C9 counterexample: for the schema field
`{key: port, type: number, required: true}`, a user entering `0`
stores — through `FormField.handleChange` — the text value `"0"`,
which is truthy; validation then reports no error and `onSubmit` is
invoked, contrary to the claim that a required number field set to 0
is reported as `This field is required` with `onSubmit` not called. -/
theorem c9_counterexample :
    formFieldChangeValue
      { key := "port", label := "Port", fieldType := "number", required := true }
      false "0" "" = .str "0" ∧
    (validate
      [{ key := "port", label := "Port", fieldType := "number", required := true }]
      [("port", JSVal.str "0")]).1 = [] ∧
    handleSubmit
      [{ key := "port", label := "Port", fieldType := "number", required := true }]
      [("port", JSVal.str "0")] = some [("port", JSVal.str "0")] := by
  refine ⟨rfl, rfl, rfl⟩

/-- C9 as amended: form validation rejects the submission exactly when
some required field's current value is falsy; a required boolean field
set to `false` is reported as `This field is required` and `onSubmit`
is not called; but a number field edited through the form stores the
entered text, so entering `0` yields the truthy string value `"0"`,
which is not reported as missing. -/
theorem c9_falsy_rejection :
    (∀ (fields : List SchemaField) (fd : FormData),
      handleSubmit fields fd = none ↔
        ∃ f ∈ fields, f.required = true ∧ f.key ≠ "" ∧
          (lookupField fd f.key).falsy = true) ∧
    (∀ (fields : List SchemaField) (fd : FormData) (f : SchemaField),
      f ∈ fields → f.required = true → f.key ≠ "" →
      lookupField fd f.key = .bool false →
      (f.key, "This field is required") ∈ (validate fields fd).1 ∧
        handleSubmit fields fd = none) ∧
    (∀ (f : SchemaField) (checked : Bool) (custom : String),
      f.fieldType = "number" →
      formFieldChangeValue f checked "0" custom = .str "0") ∧
    (∀ (fd : FormData) (f : SchemaField),
      lookupField fd f.key = .str "0" → requiredMissing fd f = false) := by
  refine ⟨?_, ?_, ?_, ?_⟩
  · intro fields fd
    rw [handleSubmit_none_iff, List.any_eq_true]
    constructor
    · rintro ⟨f, hf, hrm⟩
      exact ⟨f, hf, (requiredMissing_iff fd f).mp hrm⟩
    · rintro ⟨f, hf, h⟩
      exact ⟨f, hf, (requiredMissing_iff fd f).mpr h⟩
  · intro fields fd f hf hreq hkey hval
    have hrm : requiredMissing fd f = true :=
      (requiredMissing_iff fd f).mpr ⟨hreq, hkey, by rw [hval]; rfl⟩
    constructor
    · rw [validate_spec]
      exact List.mem_map.mpr ⟨f, List.mem_filter.mpr ⟨hf, hrm⟩, rfl⟩
    · rw [handleSubmit_none_iff, List.any_eq_true]
      exact ⟨f, hf, hrm⟩
  · intro f checked custom hft
    unfold formFieldChangeValue
    rw [hft]
    rfl
  · intro fd f hval
    unfold requiredMissing
    rw [hval]
    simp [JSVal.falsy]

/-- C9 witness: a required boolean field whose stored value is `false`
is reported as `This field is required` and blocks `onSubmit`. -/
theorem c9_witness :
    ((
      { key := "ingress", label := "Ingress", fieldType := "boolean",
        required := true } : SchemaField).key, "This field is required") ∈
      (validate
        [{ key := "ingress", label := "Ingress", fieldType := "boolean",
           required := true }]
        [("ingress", JSVal.bool false)]).1 ∧
    handleSubmit
      [{ key := "ingress", label := "Ingress", fieldType := "boolean",
         required := true }]
      [("ingress", JSVal.bool false)] = none :=
  c9_falsy_rejection.2.1 _ _ _ (List.mem_singleton.mpr rfl) rfl (by decide) rfl

/-! ### Lemmas about the Pipeline Executor model -/

theorem execSteps_mem (o : Nat → StepOutcome) (steps : List String) (k : Nat)
    (j : Nat) (n : String) (hmem : (j, n) ∈ (execSteps o steps k).1) :
    k ≤ j ∧ ∀ m, k ≤ m → m < j → o m = .success := by
  induction steps generalizing k with
  | nil => simp [execSteps] at hmem
  | cons s rest ih =>
    unfold execSteps at hmem
    cases ho : o k with
    | failure =>
      rw [ho] at hmem
      simp at hmem
      rcases hmem with ⟨hj, _⟩
      exact ⟨by omega, fun m hkm hmk => absurd hmk (by omega)⟩
    | success =>
      rw [ho] at hmem
      simp at hmem
      rcases hmem with ⟨hj, _⟩ | hrest
      · exact ⟨by omega, fun m hkm hmk => absurd hmk (by omega)⟩
      · rcases ih (k + 1) hrest with ⟨hkj, hall⟩
        refine ⟨Nat.le_of_succ_le hkj, fun m hkm hmj => ?_⟩
        rcases Nat.eq_or_lt_of_le hkm with he | hlt
        · rw [← he]; exact ho
        · exact hall m hlt hmj

theorem execSteps_fail_status (o : Nat → StepOutcome) (steps : List String)
    (k : Nat) (i : Nat) (hki : k ≤ i) (hlen : i < k + steps.length)
    (hf : o i = .failure) : (execSteps o steps k).2 = .failed := by
  induction steps generalizing k with
  | nil => simp at hlen; omega
  | cons s rest ih =>
    unfold execSteps
    cases ho : o k with
    | failure => rfl
    | success =>
      simp only []
      have hne : i ≠ k := by
        intro he
        rw [he] at hf
        rw [hf] at ho
        cases ho
      have hki' : k + 1 ≤ i := Nat.lt_of_le_of_ne hki (fun h => hne h.symm)
      have hlen' : i < (k + 1) + rest.length := by
        simp at hlen
        omega
      exact ih (k + 1) hki' hlen'

theorem execSteps_succ_iff (o : Nat → StepOutcome) (steps : List String) (k : Nat) :
    (execSteps o steps k).2 = .succeeded ↔
      ∀ m, k ≤ m → m < k + steps.length → o m = .success := by
  induction steps generalizing k with
  | nil =>
    simp [execSteps]
    intro m hkm hmk
    omega
  | cons s rest ih =>
    unfold execSteps
    cases ho : o k with
    | failure =>
      simp only []
      constructor
      · intro h
        cases h
      · intro h
        have := h k (Nat.le_refl k) (by simp)
        rw [this] at ho
        cases ho
    | success =>
      simp only []
      rw [ih (k + 1)]
      constructor
      · intro h m hkm hmlen
        rcases Nat.eq_or_lt_of_le hkm with he | hlt
        · rw [← he]; exact ho
        · refine h m hlt ?_
          simp at hmlen
          omega
      · intro h m hkm hmlen
        refine h m (Nat.le_of_succ_le hkm) ?_
        simp
        omega

/-! ### Theorems for the claims about the pipeline run -/

/-- C1. For every pipeline run, if a step fails then the run's terminal
status is `failed` and no log event is emitted for any later step of
the template: every emitted event is tagged with a step index at or
before the failing one.  (Spec-modelled Pipeline Executor, §4.2.) -/
theorem c1_failure_halts (steps : List String) (o : Nat → StepOutcome)
    (i : Nat) (hi : i < steps.length) (hf : o i = .failure) :
    (runPipeline steps o).2 = .failed ∧
      ∀ p ∈ (runPipeline steps o).1, p.1 ≤ i := by
  constructor
  · exact execSteps_fail_status o steps 0 i (Nat.zero_le i) (by simpa using hi) hf
  · intro p hp
    rcases execSteps_mem o steps 0 p.1 p.2 (by simpa using hp) with ⟨_, hall⟩
    by_contra hgt
    have hilt : i < p.1 := Nat.lt_of_not_le hgt
    have := hall i (Nat.zero_le i) hilt
    rw [this] at hf
    cases hf

/-- C1 witness: the three-step template `[A(success), B(fail),
C(success)]` ends in `failed` and emits events only for steps 0 and 1,
never for C. -/
theorem c1_witness :
    (runPipeline ["A", "B", "C"]
      (fun i => if i == 1 then StepOutcome.failure else StepOutcome.success)).2 =
        RunStatus.failed ∧
    (runPipeline ["A", "B", "C"]
      (fun i => if i == 1 then StepOutcome.failure else StepOutcome.success)).1 =
        [(0, "A"), (1, "B")] := by
  refine ⟨(c1_failure_halts _ _ 1 (by decide) rfl).1, rfl⟩

/-- C2. For every pipeline run, the terminal status is `succeeded` if
and only if every step of the template succeeded; in particular a run
with a failing step never ends in `succeeded`.  (Spec-modelled Pipeline
Executor, §4.2.) -/
theorem c2_succeeded_iff (steps : List String) (o : Nat → StepOutcome) :
    ((runPipeline steps o).2 = .succeeded ↔
      ∀ i, i < steps.length → o i = .success) ∧
    (∀ i, i < steps.length → o i = .failure →
      (runPipeline steps o).2 ≠ .succeeded) := by
  have hiff : (runPipeline steps o).2 = .succeeded ↔
      ∀ i, i < steps.length → o i = .success := by
    unfold runPipeline
    rw [execSteps_succ_iff]
    constructor
    · intro h i hi
      exact h i (Nat.zero_le i) (by simpa using hi)
    · intro h m _ hm
      exact h m (by simpa using hm)
  refine ⟨hiff, ?_⟩
  intro i hi hf hsucc
  have := hiff.mp hsucc i hi
  rw [this] at hf
  cases hf

/-- C2 witness: a two-step run with both steps succeeding ends in
`succeeded`, and the same template with a failing second step does
not. -/
theorem c2_witness :
    (runPipeline ["A", "B"] (fun _ => StepOutcome.success)).2 =
      RunStatus.succeeded ∧
    (runPipeline ["A", "B"]
      (fun i => if i == 1 then StepOutcome.failure else StepOutcome.success)).2 ≠
        RunStatus.succeeded := by
  constructor
  · exact (c2_succeeded_iff ["A", "B"] _).1.mpr (fun i _ => rfl)
  · exact (c2_succeeded_iff ["A", "B"] _).2 1 (by decide) rfl

/-! ### The invariant of the LogViewer component state -/

theorem bumpStep_name (m : LogMessage) (s : StepEntry) :
    (bumpStep m s).name = s.name := by
  unfold bumpStep
  by_cases h : (s.name == m.step) = true
  · rw [if_pos h]
  · rw [if_neg h]

theorem viewerInv_apply (st : ViewerState) (e : WsEvent) (h : ViewerInv st) :
    ViewerInv (applyWsEvent st e) := by
  rcases h with ⟨hsteps, hmem⟩
  cases e with
  | close => exact ⟨hsteps, hmem⟩
  | sockError => exact ⟨hsteps, hmem⟩
  | msg m =>
    show ViewerInv (onMessage st m)
    by_cases hstep : m.step = ""
    · have hbne : (m.step != "") = false := by simp [hstep]
      constructor
      · intro s hs
        simp only [onMessage, hbne, if_neg Bool.false_ne_true] at hs
        rcases hsteps s hs with ⟨hname, hmsgs, hne, hstat⟩
        refine ⟨hname, ?_, hne, hstat⟩
        simp only [onMessage, hbne, if_neg Bool.false_ne_true, List.filter_append]
        have hpm : (m.step == s.name) = false := by
          rw [hstep]
          exact beq_eq_false_iff_ne.mpr (Ne.symm hname)
        simp [hpm, hmsgs]
      · intro m' hm' hm'step
        simp only [onMessage, hbne, if_neg Bool.false_ne_true] at hm' ⊢
        rcases List.mem_append.mp hm' with hold | hnew
        · exact hmem m' hold hm'step
        · rw [List.mem_singleton.mp hnew] at hm'step
          exact absurd hstep hm'step
    · have hbne : (m.step != "") = true := by simp [hstep]
      have hifsteps : (onMessage st m).steps = updateSteps st.steps m := by
        simp [onMessage, hbne]
      have hiflog : (onMessage st m).logMessages = st.logMessages ++ [m] := rfl
      by_cases hany : st.steps.any (fun s => s.name == m.step) = true
      · have hupd : (onMessage st m).steps = st.steps.map (bumpStep m) := by
          rw [hifsteps]
          unfold updateSteps
          rw [if_pos hany]
        constructor
        · intro s' hs'
          rw [hupd] at hs'
          rcases List.mem_map.mp hs' with ⟨s, hs, rfl⟩
          rcases hsteps s hs with ⟨hname, hmsgs, hne, hstat⟩
          rw [hiflog]
          by_cases hsn : (s.name == m.step) = true
          · have hsn' : s.name = m.step := beq_iff_eq.mp hsn
            have hpm : (m.step == s.name) = true := by
              rw [hsn']
              simp
            have hbump : bumpStep m s =
                { s with
                  status := if m.level == "error" then "failed" else "running",
                  messages := s.messages ++ [m] } := by
              unfold bumpStep
              rw [if_pos hsn]
            rw [hbump]
            refine ⟨hname, ?_, by simp, ?_⟩
            · simp [List.filter_append, hpm, hmsgs]
            · have h1 : 1 ≤ s.messages.length :=
                Nat.one_le_iff_ne_zero.mpr
                  (fun hz => hne (List.eq_nil_of_length_eq_zero hz))
              have hlen : ¬((s.messages ++ [m]).length ≤ 1) := by
                rw [List.length_append]
                simp only [List.length_singleton]
                omega
              rw [if_neg hlen]
              unfold statusOfLastLevel
              rw [List.getLast?_concat]
          · have hpm : (m.step == s.name) = false := by
              refine beq_eq_false_iff_ne.mpr (fun hcontra => ?_)
              rw [hcontra] at hsn
              simp at hsn
            have hbump : bumpStep m s = s := by
              unfold bumpStep
              rw [if_neg (by simp [hsn])]
            rw [hbump]
            refine ⟨hname, ?_, hne, hstat⟩
            simp [List.filter_append, hpm, hmsgs]
        · intro m' hm' hm'step
          rw [hiflog] at hm'
          rw [hupd]
          rcases List.mem_append.mp hm' with hold | hnew
          · rcases hmem m' hold hm'step with ⟨s, hs, hsname⟩
            exact ⟨bumpStep m s, List.mem_map_of_mem _ hs, by rw [bumpStep_name]; exact hsname⟩
          · rw [List.mem_singleton.mp hnew]
            rcases List.any_eq_true.mp hany with ⟨s, hs, hsn⟩
            exact ⟨bumpStep m s, List.mem_map_of_mem _ hs,
              by rw [bumpStep_name]; exact beq_iff_eq.mp hsn⟩
      · have hupd : (onMessage st m).steps =
            st.steps ++ [{ name := m.step, status := "running", messages := [m] }] := by
          rw [hifsteps]
          unfold updateSteps
          rw [if_neg hany]
        have hanyf : ∀ s ∈ st.steps, (s.name == m.step) = false := by
          intro s hs
          cases hx : (s.name == m.step)
          · rfl
          · exact absurd (List.any_eq_true.mpr ⟨s, hs, hx⟩) hany
        constructor
        · intro s' hs'
          rw [hupd] at hs'
          rw [hiflog]
          rcases List.mem_append.mp hs' with hold | hnew
          · rcases hsteps s' hold with ⟨hname, hmsgs, hne, hstat⟩
            have hpm : (m.step == s'.name) = false := by
              refine beq_eq_false_iff_ne.mpr (fun hcontra => ?_)
              have := hanyf s' hold
              rw [hcontra] at this
              simp at this
            refine ⟨hname, ?_, hne, hstat⟩
            simp [List.filter_append, hpm, hmsgs]
          · rw [List.mem_singleton.mp hnew]
            refine ⟨hstep, ?_, by simp, by simp⟩
            have hnil : st.logMessages.filter (fun m' => m'.step == m.step) = [] := by
              rw [List.filter_eq_nil_iff]
              intro m' hm'
              cases hx : (m'.step == m.step)
              · simp
              · have hm'step : m'.step = m.step := beq_iff_eq.mp hx
                have hm'ne : m'.step ≠ "" := by rw [hm'step]; exact hstep
                rcases hmem m' hm' hm'ne with ⟨s, hs, hsname⟩
                have := hanyf s hs
                rw [hsname, hm'step] at this
                simp at this
            simp [List.filter_append, hnil]
        · intro m' hm' hm'step
          rw [hiflog] at hm'
          rw [hupd]
          rcases List.mem_append.mp hm' with hold | hnew
          · rcases hmem m' hold hm'step with ⟨s, hs, hsname⟩
            exact ⟨s, List.mem_append_left _ hs, hsname⟩
          · rw [List.mem_singleton.mp hnew]
            exact ⟨_, List.mem_append_right _ (List.mem_singleton.mpr rfl), rfl⟩

theorem viewerInv_foldl (evts : List WsEvent) :
    ∀ st, ViewerInv st → ViewerInv (evts.foldl applyWsEvent st) := by
  induction evts with
  | nil => intro st h; exact h
  | cons e rest ih =>
    intro st h
    exact ih _ (viewerInv_apply st e h)

theorem viewerInv_runViewer (evts : List WsEvent) : ViewerInv (runViewer evts) := by
  refine viewerInv_foldl evts viewerStart ⟨?_, ?_⟩
  · intro s hs
    simp [viewerStart] at hs
  · intro m hm
    simp [viewerStart] at hm

theorem foldl_msgs_log (msgs : List LogMessage) :
    ∀ st : ViewerState,
      ((msgs.map WsEvent.msg).foldl applyWsEvent st).logMessages =
        st.logMessages ++ msgs := by
  induction msgs with
  | nil => intro st; simp
  | cons m rest ih =>
    intro st
    simp only [List.map_cons, List.foldl_cons, ih]
    simp [applyWsEvent, onMessage]

theorem runViewerMsgs_log (msgs : List LogMessage) :
    (runViewerMsgs msgs).logMessages = msgs := by
  unfold runViewerMsgs runViewer
  rw [foldl_msgs_log]
  rfl

/-! ### Lemmas about the Log Event Broker model -/

theorem brokerInv_publish (st : BrokerState) (step level text : String)
    (h : BrokerInv st) : BrokerInv (brokerPublish st step level text) := by
  rcases h with ⟨hbuf, hib⟩
  constructor
  · show (st.buffer ++ [_]).map BrokerEvent.seq =
      List.range (st.buffer ++ [_]).length
    rw [List.map_append, hbuf, List.length_append]
    simp [List.range_succ]
  · intro ib hibm
    rcases List.mem_map.mp hibm with ⟨ib₀, hib₀, rfl⟩
    rw [hib ib₀ hib₀]
    rfl

theorem brokerInv_attach (st : BrokerState) (h : BrokerInv st) :
    BrokerInv (brokerAttach st) := by
  rcases h with ⟨hbuf, hib⟩
  refine ⟨hbuf, ?_⟩
  intro ib hibm
  rcases List.mem_append.mp hibm with hold | hnew
  · exact hib ib hold
  · rw [List.mem_singleton.mp hnew]
    rfl

theorem brokerInv_run (acts : List BrokerAction) : BrokerInv (brokerRun acts) := by
  unfold brokerRun
  have hstart : BrokerInv { buffer := [], inboxes := [] } := by
    constructor
    · rfl
    · intro ib hib
      simp at hib
  generalize hst : ({ buffer := [], inboxes := [] } : BrokerState) = st at hstart
  clear hst
  induction acts generalizing st with
  | nil => exact hstart
  | cons a rest ih =>
    rw [List.foldl_cons]
    cases a with
    | publish step level text => exact ih _ (brokerInv_publish st step level text hstart)
    | attach => exact ih _ (brokerInv_attach st hstart)

/-! ### Theorems for the claims about log delivery and the viewer -/

/-- C3. Log events of a run are totally ordered by sequence number —
the buffered sequence numbers are exactly `0, 1, …`, strictly
increasing with no gaps — and delivered to every subscriber in that
order: any two subscribers have been delivered identical event
sequences, both equal to the buffer.  In the subscriber view, the
received events are appended in arrival order — the event list equals
the received sequence, and each step entry's message list is exactly
the received messages of that step in arrival order, never reordered.
(Broker modelled from the spec, §4.4; viewer from `LogViewer.jsx`.) -/
theorem c3_ordered_delivery :
    (∀ acts : List BrokerAction,
      (brokerRun acts).buffer.map BrokerEvent.seq =
        List.range (brokerRun acts).buffer.length) ∧
    (∀ (acts : List BrokerAction) (ib₁ ib₂ : List BrokerEvent),
      ib₁ ∈ (brokerRun acts).inboxes → ib₂ ∈ (brokerRun acts).inboxes →
      ib₁ = ib₂ ∧ ib₁ = (brokerRun acts).buffer) ∧
    (∀ msgs : List LogMessage, (runViewerMsgs msgs).logMessages = msgs) ∧
    (∀ (msgs : List LogMessage) (s : StepEntry),
      s ∈ (runViewerMsgs msgs).steps →
      s.messages = msgs.filter (fun m => m.step == s.name)) := by
  refine ⟨?_, ?_, runViewerMsgs_log, ?_⟩
  · intro acts
    exact (brokerInv_run acts).1
  · intro acts ib₁ ib₂ h₁ h₂
    have hinv := (brokerInv_run acts).2
    rw [hinv ib₁ h₁, hinv ib₂ h₂]
    exact ⟨rfl, rfl⟩
  · intro msgs s hs
    have hinv := (viewerInv_runViewer (msgs.map WsEvent.msg)).1 s hs
    rw [← runViewerMsgs_log msgs]
    exact hinv.2.1

/-- C3 witness: after one subscription and two publishes, the attached
subscriber's delivered sequence equals the buffer; and the two-message
viewer run files both messages under their step in arrival order. -/
theorem c3_witness :
    demoBuffer = (brokerRun demoBrokerActs).buffer ∧
    generateEntry.messages =
      generateMsgs.filter (fun m => m.step == generateEntry.name) := by
  constructor
  · exact (c3_ordered_delivery.2.1 demoBrokerActs demoBuffer demoBuffer
      (by decide) (by decide)).2
  · exact c3_ordered_delivery.2.2.2 generateMsgs generateEntry (by decide)

/-- C8 counterexample: a step whose first and only received event has
level `error` is created with status `running`, not the `failed` that a
status determined solely by the level of the most recent event would
give. -/
theorem c8_counterexample :
    ((runViewerMsgs
        [{ step := "build", level := "error", message := "image build failed" }]).steps.map
      StepEntry.status) = ["running"] ∧
    statusOfLastLevel
        [{ step := "build", level := "error", message := "image build failed" }] =
      "failed" := by
  exact ⟨rfl, rfl⟩

/-- C8 as amended: every step entry's displayed status is only ever
`running` or `failed` (`succeeded` is never assigned by the message
handler); a step's very first event always yields status `running`
regardless of its level; and from the second event on the status is
determined solely by the level of the most recent event for that step —
so a step previously marked `failed` reverts to `running` upon any
later non-error event. -/
theorem c8_step_status (msgs : List LogMessage) (s : StepEntry)
    (hs : s ∈ (runViewerMsgs msgs).steps) :
    (s.status = "running" ∨ s.status = "failed") ∧
    s.status ≠ "succeeded" ∧
    (s.messages.length = 1 → s.status = "running") ∧
    (2 ≤ s.messages.length → s.status = statusOfLastLevel s.messages) := by
  rcases (viewerInv_runViewer (msgs.map WsEvent.msg)).1 s hs with ⟨_, _, hne, hstat⟩
  have hchar : ∀ ms : List LogMessage,
      statusOfLastLevel ms = "running" ∨ statusOfLastLevel ms = "failed" := by
    intro ms
    unfold statusOfLastLevel
    cases ms.getLast? with
    | none => exact Or.inl rfl
    | some mlast =>
      by_cases herr : (mlast.level == "error") = true
      · simp [herr]
      · simp [herr]
  have hout : s.status = "running" ∨ s.status = "failed" := by
    rw [hstat]
    by_cases hlen : s.messages.length ≤ 1
    · rw [if_pos hlen]
      exact Or.inl rfl
    · rw [if_neg hlen]
      exact hchar s.messages
  refine ⟨hout, ?_, ?_, ?_⟩
  · rcases hout with h | h <;> rw [h] <;> decide
  · intro hlen
    rw [hstat, if_pos (by omega)]
  · intro hlen
    rw [hstat, if_neg (by omega)]

/-- C8 witness: a step that received an `error` event and then an
`info` event has reverted to status `running`, determined by the level
of its most recent event. -/
theorem c8_witness :
    (buildRetryEntry.status = "running" ∨ buildRetryEntry.status = "failed") ∧
    buildRetryEntry.status ≠ "succeeded" ∧
    (buildRetryEntry.messages.length = 1 → buildRetryEntry.status = "running") ∧
    (2 ≤ buildRetryEntry.messages.length →
      buildRetryEntry.status = statusOfLastLevel buildRetryEntry.messages) :=
  c8_step_status buildRetryMsgs buildRetryEntry (by decide)

theorem foldl_isComplete (evts : List WsEvent) :
    ∀ st : ViewerState,
      (evts.foldl applyWsEvent st).isComplete =
        (st.isComplete ||
          evts.any (fun e =>
            match e with
            | .msg m => jsIncludes m.message "successfully"
            | .close => true
            | .sockError => false)) := by
  induction evts with
  | nil => intro st; simp
  | cons e rest ih =>
    intro st
    rw [List.foldl_cons, ih, List.any_cons]
    have hstep : (applyWsEvent st e).isComplete =
        (st.isComplete ||
          (match e with
           | .msg m => jsIncludes m.message "successfully"
           | .close => true
           | .sockError => false)) := by
      cases e with
      | msg m => rfl
      | close => simp [applyWsEvent]
      | sockError => simp [applyWsEvent]
    rw [hstep, Bool.or_assoc]

/-- C10. The viewer marks the run complete exactly when the socket has
closed or some received event's message text contains the substring
`successfully`; in particular an error-level event whose text contains
`successfully` marks the run both failed and complete, and a socket
close after any event sequence (including after a failure) marks it
complete. -/
theorem c10_completion_inference :
    (∀ evts : List WsEvent,
      (runViewer evts).isComplete =
        evts.any (fun e =>
          match e with
          | .msg m => jsIncludes m.message "successfully"
          | .close => true
          | .sockError => false)) ∧
    (∀ (evts : List WsEvent) (m : LogMessage),
      m.level = "error" → jsIncludes m.message "successfully" = true →
      (runViewer (evts ++ [.msg m])).isComplete = true ∧
        (runViewer (evts ++ [.msg m])).hasFailed = true) ∧
    (∀ evts : List WsEvent, (runViewer (evts ++ [.close])).isComplete = true) := by
  refine ⟨?_, ?_, ?_⟩
  · intro evts
    unfold runViewer
    rw [foldl_isComplete]
    rfl
  · intro evts m hlvl hinc
    unfold runViewer
    rw [List.foldl_append]
    constructor
    · show ((runViewer evts).isComplete || jsIncludes m.message "successfully") = true
      rw [hinc]
      simp
    · show ((runViewer evts).hasFailed || (m.level == "error")) = true
      rw [hlvl]
      simp
  · intro evts
    unfold runViewer
    rw [List.foldl_append]
    rfl

/-- C10 witness: a single error-level event whose text contains
`successfully` leaves the viewer both complete and failed. -/
theorem c10_witness :
    (runViewer [WsEvent.msg
      { step := "sync", level := "error",
        message := "rolled back successfully after sync failure" }]).isComplete = true ∧
    (runViewer [WsEvent.msg
      { step := "sync", level := "error",
        message := "rolled back successfully after sync failure" }]).hasFailed = true :=
  c10_completion_inference.2.1 []
    { step := "sync", level := "error",
      message := "rolled back successfully after sync failure" }
    rfl (by decide)

/-! ### Theorems for the lifecycle, authorization and timing claims -/

/-- C5. A direct admin-triggered lifecycle command (activate,
deactivate, delete) against a Service with an active PipelineRun fails
with `ConflictError` and leaves the registry — hence the Service's
state — unchanged; such a command succeeds only when no PipelineRun is
active for that Service.  (Spec-modelled Service lifecycle state
machine, §4.3.) -/
theorem c5_lifecycle_guard (reg : List ServiceRec) (sid : Nat)
    (svc : ServiceRec) (cmd : LifecycleCmd)
    (hfind : reg.find? (fun s => s.id == sid) = some svc) :
    (svc.runActive = true →
      lifecycleCommand reg sid cmd = (.error .conflictError, reg)) ∧
    (∀ reg', lifecycleCommand reg sid cmd = (.ok (), reg') →
      svc.runActive = false) := by
  constructor
  · intro h
    unfold lifecycleCommand
    rw [hfind]
    unfold applyLifecycle
    simp [h]
  · intro reg' hok
    cases hx : svc.runActive
    · rfl
    · exfalso
      unfold lifecycleCommand at hok
      rw [hfind] at hok
      unfold applyLifecycle at hok
      simp [hx] at hok

/-- C5 witness: deleting a Service whose PipelineRun is active is
rejected with `ConflictError` and the registry is unchanged. -/
theorem c5_witness :
    lifecycleCommand [activeRunSvc] 0 .delete =
      (.error .conflictError, [activeRunSvc]) :=
  (c5_lifecycle_guard [activeRunSvc] 0 activeRunSvc .delete rfl).1 rfl

/-- C6. The orchestrator's authorization outcome is a function of the
explicit authenticated-principal argument (and requested action) only:
two Facade calls with identical arguments but different ambient
client-side state — such as a different `user` role in shared local
storage — yield the same outcome.  (Spec-modelled Facade authorization,
§9.) -/
theorem c6_explicit_principal_only :
    (∀ (p : Principal) (action : String) (amb₁ amb₂ : Ambient),
      facadeCall p action amb₁ = facadeCall p action amb₂) ∧
    (∀ (p : Principal) (action : String) (amb : Ambient),
      facadeCall p action amb = authorizeLifecycle p action) :=
  ⟨fun _ _ _ _ => rfl, fun _ _ _ => rfl⟩

/-! ### Lemmas about the mock deployment timing -/

theorem runMock_msgs (steps : List MockStep) :
    ∀ now, (runMock steps now).map TimedLog.message = steps.map MockStep.msg := by
  induction steps with
  | nil => intro now; rfl
  | cons s rest ih =>
    intro now
    simp only [runMock, List.map_cons, ih]

theorem runMock_time (steps : List MockStep) :
    ∀ (now i : Nat) (h : i < (runMock steps now).length),
      ((runMock steps now).get ⟨i, h⟩).time =
        now + ((steps.take (i + 1)).map MockStep.delay).sum := by
  induction steps with
  | nil =>
    intro now i h
    simp [runMock] at h
  | cons s rest ih =>
    intro now i h
    cases i with
    | zero => simp [runMock]
    | succ i' =>
      have h' : i' < (runMock rest (now + s.delay)).length := by
        simp only [runMock, List.length_cons] at h
        omega
      have hget : ((runMock (s :: rest) now).get ⟨i' + 1, h⟩) =
          (runMock rest (now + s.delay)).get ⟨i', h'⟩ := rfl
      rw [hget, ih (now + s.delay) i' h']
      simp only [List.take, List.map_cons, List.sum_cons]
      omega

/-- C7 counterexample: in the wizard's simulated deployment
(`handleCreate`), the log emission schedule is a function of the
predetermined delay table — the same step messages under an altered
delay table yield a different schedule, and the actual table produces
the cumulative instants 500, 1500, …, 12100 ms — refuting the claim
that no step transition occurs as a function of a predetermined
delay. -/
theorem c7_counterexample :
    reviewCardStepsAltDelay.map MockStep.msg =
      reviewCardSteps.map MockStep.msg ∧
    reviewCardStepsAltDelay.map MockStep.stepType =
      reviewCardSteps.map MockStep.stepType ∧
    mockEmissionTimes reviewCardSteps =
      [500, 1500, 2300, 2900, 4400, 5600, 6600, 8600, 9100, 10100, 11600, 12100] ∧
    mockEmissionTimes reviewCardStepsAltDelay ≠ mockEmissionTimes reviewCardSteps := by
  exact ⟨rfl, rfl, rfl, by decide⟩

/-- C7 as amended: in the front-end mock deployment run, every step
transition is driven by a fixed sleep interval — the i-th log line is
emitted exactly when the sum of the first i+1 configured delays has
elapsed, and the emitted lines are the configured step messages in
order, with no dependence on any external operation.  (The spec
designates these delays as presentation artifacts that the real
orchestrator must replace with external-operation completion.) -/
theorem c7_amended_fixed_delay_schedule (steps : List MockStep) (i : Nat)
    (h : i < (mockSchedule steps).length) :
    ((mockSchedule steps).get ⟨i, h⟩).time =
      ((steps.take (i + 1)).map MockStep.delay).sum ∧
    (mockSchedule steps).map TimedLog.message = steps.map MockStep.msg := by
  constructor
  · have := runMock_time steps 0 i h
    simpa using this
  · exact runMock_msgs steps 0

/-- C7 witness: the second mock log line is emitted exactly at the sum
of the first two configured delays (1500 ms). -/
theorem c7_witness :
    ((mockSchedule reviewCardSteps).get ⟨1, by decide⟩).time =
      ((reviewCardSteps.take 2).map MockStep.delay).sum :=
  (c7_amended_fixed_delay_schedule reviewCardSteps 1 (by decide)).1

end HubbOps
